import Mathlib

/-!
Shallow embedding of the session coordinator core of the computer-use
backend (`backend/app/agent_runner.py`, `backend/app/db.py`,
`backend/app/api.py`).

Python dictionaries and JSON column values are modelled by the `Jval`
type; the coordinator (`AgentSession`), the persistence layer (`DB`,
`upsert_message`, `create_session`) and the process-wide registry
(`SESSIONS` dictionary assignment) are modelled as pure functions over
explicit state.  Non-determinism of the event loop is modelled where a
claim needs it: the turn lock as a two-task interleaving transition
system, the event queue as a push/consume transition system.
-/

namespace AgentBackend

/-- JSON-like values, modelling Python dicts / lists / strings as they are
built in `agent_runner.py` and stored in the `messages.content` JSON
column. Object fields keep insertion order, as Python dicts do. -/
inductive Jval where
  | null : Jval
  | bool : Bool → Jval
  | str : String → Jval
  | num : Nat → Jval
  | arr : List Jval → Jval
  | obj : List (String × Jval) → Jval
deriving Repr

/-- Python `d[k]` lookup on an ordered association list (dict). -/
def lookupField : List (String × Jval) → String → Option Jval
  | [], _ => none
  | (k', v) :: rest, k => if k' = k then some v else lookupField rest k

/-- Lookup `m["k"]` on a `Jval`: defined only on objects. -/
def Jval.getField : Jval → String → Option Jval
  | .obj fields, k => lookupField fields k
  | _, _ => none

/-- Python dict assignment `d[k] = v`: replaces in place if the key is
present (keeping its position), otherwise appends. -/
def dictSet : List (String × Jval) → String → Jval → List (String × Jval)
  | [], k, v => [(k, v)]
  | (k', v') :: rest, k, v =>
      if k' = k then (k, v) :: rest else (k', v') :: dictSet rest k v

/-- Python dict-spread `{"id": mid, **m}` as used at
`agent_runner.py:117`: start from `[("id", mid)]`, then write each field
of `m` in order (later keys overwrite). Non-objects are left unchanged
(the source only spreads message dicts). -/
def spreadWithId (mid : String) (m : Jval) : Jval :=
  match m with
  | .obj fields =>
      .obj (fields.foldl (fun acc kv => dictSet acc kv.1 kv.2) [("id", Jval.str mid)])
  | other => other

/-- One row of the `messages` table (`db.py`). -/
structure MessageRow where
  id : String
  session_id : String
  role : String
  content : Jval
  created_at : Nat
deriving Repr

/-- One row of the `sessions` table (`db.py`). -/
structure SessionRow where
  id : String
  model : String
  tool_version : String
  system_prompt_suffix : String
  created_at : Nat
  updated_at : Nat
deriving Repr, DecidableEq

/-- The persistence store: the two tables of `db.py`. -/
structure DB where
  sessions : List SessionRow
  messages : List MessageRow
deriving Repr

/-- Model of `db.create_session`: inserts one session row with
`created_at = updated_at = now`. -/
def create_session (db : DB) (session_id model tool_version system_suffix : String)
    (now : Nat) : DB :=
  { db with
    sessions := db.sessions ++
      [{ id := session_id, model := model, tool_version := tool_version,
         system_prompt_suffix := system_suffix, created_at := now, updated_at := now }] }

/-- Model of `db.upsert_message`: inserts one message row, then bumps
`updated_at` on every session row whose id matches (`UPDATE ... WHERE`). -/
def upsert_message (db : DB) (message_id session_id role : String) (content : Jval)
    (now : Nat) : DB :=
  { sessions := db.sessions.map
      (fun s => if s.id = session_id then { s with updated_at := now } else s),
    messages := db.messages ++
      [{ id := message_id, session_id := session_id, role := role,
         content := content, created_at := now }] }

/-- A `StreamEvent` (`agent_runner.py:21`). -/
structure StreamEvent where
  event : String
  data : Jval
deriving Repr

/-- FIFO enqueue, the effect of `asyncio.Queue.put` on the queue content. -/
def enqueue (q : List StreamEvent) (e : StreamEvent) : List StreamEvent :=
  q ++ [e]

/-- The in-memory state of one `AgentSession` coordinator
(`agent_runner.py:27`). `queue` holds the pushed-but-not-yet-consumed
events; `lockHeld` is the state of `self.lock`. -/
structure AgentSession where
  session_id : String
  model : String
  tool_version : String
  api_key : String
  system_prompt_suffix : String
  messages : List Jval
  queue : List StreamEvent
  lockHeld : Bool
deriving Repr

/-- Model of `AgentSession.__init__`: empty history, empty queue, lock idle. -/
def AgentSession.init (session_id model tool_version api_key system_prompt_suffix : String) :
    AgentSession :=
  { session_id := session_id, model := model, tool_version := tool_version,
    api_key := api_key, system_prompt_suffix := system_prompt_suffix,
    messages := [], queue := [], lockHeld := false }

/-- Model of `AgentSession._emit`: put one event on the session's queue. -/
def AgentSession.emit (s : AgentSession) (event : String) (data : Jval) : AgentSession :=
  { s with queue := enqueue s.queue { event := event, data := data } }

/-- The message dict built by `add_user_message` (`agent_runner.py:52`). -/
def userMsg (message_id content : String) : Jval :=
  .obj [("id", .str message_id), ("role", .str "user"),
        ("content", .arr [.obj [("type", .str "text"), ("text", .str content)]])]

/-- Result of a coordinator operation that may raise: the state reached
(all mutations made before the raise included) plus the propagated
error, if any. -/
structure AddResult where
  sess : AgentSession
  db : DB
  err : Option String
deriving Repr

/-- Model of `AgentSession.add_user_message` (`agent_runner.py:50-59`): build the
user message, append it to the in-memory history, persist it via
`upsert_message`, then emit a `message` event.  `message_id` stands for
the generated `uuid4`, `now` for `datetime.utcnow()`.  `persistOk`
models whether the durable write succeeds; when it raises, the append
has already happened and the emit never does. -/
def AgentSession.add_user_message (s : AgentSession) (db : DB)
    (message_id content : String) (now : Nat) (persistOk : Bool) : AddResult :=
  let msg := userMsg message_id content
  let s1 := { s with messages := s.messages ++ [msg] }
  if persistOk then
    let db1 := upsert_message db message_id s.session_id "user" msg now
    { sess := s1.emit "message" msg, db := db1, err := none }
  else
    { sess := s1, db := db, err := some "PersistenceError" }

/-- A `ToolResult` as consumed by `on_tool_output`
(`computer_use_demo.tools.ToolResult` fields used by the coordinator). -/
structure ToolResult where
  output : Option String
  error : Option String
  base64_image : Option String
deriving Repr

/-- Python truthiness of an optional string, as in
`bool(result.base64_image)`: `None` and `""` are falsy. -/
def pyTruthy : Option String → Bool
  | none => false
  | some s => !(s == "")

/-- An optional string as a JSON value (`None` becomes `null`). -/
def optStr : Option String → Jval
  | none => .null
  | some s => .str s

/-- The single tool-result content block built by `on_tool_output`
(`agent_runner.py:67-73`). -/
def toolResultPayload (tool_id : String) (r : ToolResult) : Jval :=
  .obj [("type", .str "tool_result"), ("tool_use_id", .str tool_id),
        ("output", optStr r.output), ("error", optStr r.error),
        ("has_image", .bool (pyTruthy r.base64_image))]

/-- The `tool` role message synthesized by `on_tool_output`
(`agent_runner.py:76-80`). -/
def toolMsg (message_id tool_id : String) (r : ToolResult) : Jval :=
  .obj [("id", .str message_id), ("role", .str "tool"),
        ("content", .arr [toolResultPayload tool_id r])]

/-- Model of `on_tool_output` (`agent_runner.py:66-82`): synthesize the tool
message, persist it, emit a `message` event. `message_id` stands for
the generated `uuid4`. -/
def AgentSession.on_tool_output (s : AgentSession) (db : DB) (r : ToolResult)
    (tool_id message_id : String) (now : Nat) : AgentSession × DB :=
  let m := toolMsg message_id tool_id r
  let db1 := upsert_message db message_id s.session_id "tool" m now
  (s.emit "message" m, db1)

/-- Model of `on_output` (`agent_runner.py:63-64`): emit an `assistant_chunk`
event wrapping the block; nothing else. -/
def AgentSession.on_output (s : AgentSession) (block : Jval) : AgentSession :=
  s.emit "assistant_chunk" (.obj [("block", block)])

/-- Model of `on_api_response` (`agent_runner.py:84-92`): emit an
`http_exchange` event with the stringified request, optional status and
optional error text. -/
def AgentSession.on_api_response (s : AgentSession) (req : String)
    (status : Option Nat) (err : Option String) : AgentSession :=
  s.emit "http_exchange"
    (.obj [("request", .str req),
           ("status", match status with | none => .null | some n => .num n),
           ("error", optStr err)])

/-- One callback invocation made by `sampling_loop` during a turn. -/
inductive CallbackInvocation where
  | chunk (block : Jval)
  | toolResult (r : ToolResult) (tool_id : String)
  | apiResponse (req : String) (status : Option Nat) (err : Option String)

/-- The observable behaviour of one `sampling_loop` invocation: the
callbacks it fires, and either the updated history it returns or the
error it raises. -/
structure ExecBehavior where
  callbacks : List CallbackInvocation
  result : Except String (List Jval)

/-- The `uuid4` supply, modelled as a counter. -/
def freshId (n : Nat) : String := "uuid-" ++ toString n

/-- Process one callback invocation against the coordinator state; tool
results consume a fresh message id. -/
def processCallback (s : AgentSession) (db : DB) (n now : Nat) :
    CallbackInvocation → AgentSession × DB × Nat
  | .chunk b => (s.on_output b, db, n)
  | .toolResult r tid =>
      let (s', db') := s.on_tool_output db r tid (freshId n) now
      (s', db', n + 1)
  | .apiResponse req st err => (s.on_api_response req st err, db, n)

/-- Process the callback invocations of a turn in order (one
serialization of the tasks created by the callback lambdas at
`agent_runner.py:100-106`). -/
def processCallbacks (s : AgentSession) (db : DB) (n now : Nat) :
    List CallbackInvocation → AgentSession × DB × Nat
  | [] => (s, db, n)
  | c :: rest =>
      let p := processCallback s db n now c
      processCallbacks p.1 p.2.1 p.2.2 now rest

/-- Test `new_messages and new_messages[-1]["role"] == "assistant"`
(`agent_runner.py:113`). -/
def lastRoleIsAssistant (msgs : List Jval) : Bool :=
  match msgs.getLast? with
  | some m =>
      match m.getField "role" with
      | some (Jval.str r) => r == "assistant"
      | _ => false
  | none => false

/-- Result of one `run_once` call: final coordinator state, store, and
the propagated executor error, if any. -/
structure RunResult where
  sess : AgentSession
  db : DB
  err : Option String

/-- Model of `AgentSession.run_once` (`agent_runner.py:61-118`), for a caller
that finds the lock free (`none` models a caller that must wait).
Inside the lock: run the executor on the current history (its callbacks
processed via `processCallbacks`); on failure the error propagates and
the lock is released; on success, if the returned history's last entry
has role `assistant`, persist it and emit a `message` event whose data
is the entry spread under a fresh id; finally replace the in-memory
history wholesale and release the lock. `n` seeds the `uuid4` supply,
`now` stands for `datetime.utcnow()`. -/
def AgentSession.run_once (s : AgentSession) (db : DB)
    (exec : List Jval → ExecBehavior) (n now : Nat) : Option RunResult :=
  if s.lockHeld then
    none
  else
    let s0 := { s with lockHeld := true }
    let beh := exec s0.messages
    let pcb := processCallbacks s0 db n now beh.callbacks
    let s1 := pcb.1
    let db1 := pcb.2.1
    let n1 := pcb.2.2
    match beh.result with
    | .error e => some { sess := { s1 with lockHeld := false }, db := db1, err := some e }
    | .ok new_messages =>
        let s2db2 :=
          if lastRoleIsAssistant new_messages then
            match new_messages.getLast? with
            | some assistant =>
                let mid := freshId n1
                let db2 := upsert_message db1 mid s1.session_id "assistant" assistant now
                (s1.emit "message" (spreadWithId mid assistant), db2)
            | none => (s1, db1)
          else (s1, db1)
        some { sess := { s2db2.1 with messages := new_messages, lockHeld := false },
               db := s2db2.2, err := none }

/-- The `SESSIONS` registry (`api.py:43`): a process-wide Python dict
from session id to coordinator, kept in insertion order. -/
def registerSession (sessions : List (String × AgentSession)) (session_id : String)
    (runner : AgentSession) : List (String × AgentSession) :=
  match sessions with
  | [] => [(session_id, runner)]
  | (k, v) :: rest =>
      if k = session_id then (session_id, runner) :: rest
      else (k, v) :: registerSession rest session_id runner

/-- Model of `SESSIONS.get(session_id)` (`api.py:127`, `api.py:143`). -/
def lookupSession (sessions : List (String × AgentSession)) (session_id : String) :
    Option AgentSession :=
  match sessions with
  | [] => none
  | (k, v) :: rest => if k = session_id then some v else lookupSession rest session_id

/-!
Interleaving model of the turn lock (`self.lock`, an `asyncio.Lock`)
for two concurrent `run_once` callers on the same coordinator.  A task
is `waiting` before `async with self.lock` grants it the lock,
`running` while its executor invocation is in flight inside the lock,
and `done` once the `async with` block has exited and released the
lock.  The executor is invoked strictly inside the lock
(`agent_runner.py:62-118`), so "task i's executor invocation is in
flight" coincides with "task i holds the lock".
-/

/-- Phase of one `run_once` caller task. -/
inductive Phase where
  | waiting : Phase
  | running : Phase
  | done : Phase
deriving Repr, DecidableEq

/-- State of one coordinator's lock together with two `run_once`
caller tasks. -/
structure LockSys where
  lock : Bool
  p1 : Phase
  p2 : Phase
deriving Repr, DecidableEq

/-- Both callers about to run, lock idle. -/
def LockSys.start : LockSys :=
  { lock := false, p1 := Phase.waiting, p2 := Phase.waiting }

/-- Interleaving steps: a waiting task acquires the lock only when it
is free (entering `async with self.lock` and beginning its executor
invocation), and a running task finishes its turn and releases the
lock (leaving the `async with` block). -/
inductive LockStep : LockSys → LockSys → Prop where
  | acquire1 : ∀ s : LockSys, s.lock = false → s.p1 = Phase.waiting →
      LockStep s { s with lock := true, p1 := Phase.running }
  | acquire2 : ∀ s : LockSys, s.lock = false → s.p2 = Phase.waiting →
      LockStep s { s with lock := true, p2 := Phase.running }
  | release1 : ∀ s : LockSys, s.p1 = Phase.running →
      LockStep s { s with lock := false, p1 := Phase.done }
  | release2 : ∀ s : LockSys, s.p2 = Phase.running →
      LockStep s { s with lock := false, p2 := Phase.done }

/-- States reachable from `LockSys.start` by interleaving steps. -/
inductive LockReachable : LockSys → Prop where
  | start : LockReachable LockSys.start
  | step : ∀ {s t : LockSys}, LockReachable s → LockStep s t → LockReachable t

/-!
Single-consumer event-queue model (`self.queue`, an `asyncio.Queue`
drained by `sse_iter`): producers push with `_emit`, the one consumer
pops in FIFO order.  `pushedLog` records every event ever pushed,
`consumed` every event yielded to the consumer so far, `pending` the
queue content.
-/

/-- History-tracking state of one session's event queue. -/
structure QueueSys where
  pending : List StreamEvent
  pushedLog : List StreamEvent
  consumed : List StreamEvent

/-- Fresh queue: nothing pushed, nothing consumed. -/
def QueueSys.start : QueueSys :=
  { pending := [], pushedLog := [], consumed := [] }

/-- Effect of one `queue.put` (via `_emit`): total, never blocks,
never drops. -/
def QueueSys.push (s : QueueSys) (e : StreamEvent) : QueueSys :=
  { s with pending := enqueue s.pending e, pushedLog := s.pushedLog ++ [e] }

/-- Steps of the queue system: any push, or the consumer taking the
front event (`await self.queue.get()` in `sse_iter`). -/
inductive QueueStep : QueueSys → QueueSys → Prop where
  | push : ∀ (s : QueueSys) (e : StreamEvent), QueueStep s (s.push e)
  | consume : ∀ (s : QueueSys) (e : StreamEvent) (rest : List StreamEvent),
      s.pending = e :: rest →
      QueueStep s { s with pending := rest, consumed := s.consumed ++ [e] }

/-- Queue states reachable from the fresh queue. -/
inductive QueueReachable : QueueSys → Prop where
  | start : QueueReachable QueueSys.start
  | step : ∀ {s t : QueueSys}, QueueReachable s → QueueStep s t → QueueReachable t

/-!
Concrete Scenario A data (spec §8): a session created with model
`"m1"`, then `add_user_message("hi")`.
-/

/-- Scenario A: the store right after `create_session` for model `"m1"`. -/
def scenarioDB0 : DB :=
  create_session { sessions := [], messages := [] } "s1" "m1" "computer_use_20250124" "" 0

/-- Scenario A: the fresh coordinator for that session. -/
def scenarioSess0 : AgentSession :=
  AgentSession.init "s1" "m1" "computer_use_20250124" "key" ""

/-- Scenario A: the state after `add_user_message("hi")` succeeds. -/
def scenarioA : AddResult :=
  scenarioSess0.add_user_message scenarioDB0 "mid-1" "hi" 1 true

/-- The bare text-block list `[ {type: "text", text: "hi"} ]`. -/
def hiBlocks : Jval :=
  Jval.arr [Jval.obj [("type", Jval.str "text"), ("text", Jval.str "hi")]]

/-!  Theorems settling the claims.  -/

/-- C3: a successful `addUserMessage(text)` appends exactly one message
with role `user` and content `[ {type: "text", text} ]` to the in-memory
history, persists exactly one row for it and bumps the session's
`updated_at`, pushes exactly one `message` event carrying the full
message, and never touches the turn lock. -/
theorem add_user_message_contract (s : AgentSession) (db : DB) (mid text : String)
    (now : Nat) :
    (s.add_user_message db mid text now true).sess.messages =
      s.messages ++ [userMsg mid text] ∧
    (userMsg mid text).getField "role" = some (Jval.str "user") ∧
    (userMsg mid text).getField "content" =
      some (Jval.arr [Jval.obj [("type", Jval.str "text"), ("text", Jval.str text)]]) ∧
    (s.add_user_message db mid text now true).db.messages = db.messages ++
      [{ id := mid, session_id := s.session_id, role := "user",
         content := userMsg mid text, created_at := now }] ∧
    (s.add_user_message db mid text now true).db.sessions = db.sessions.map
      (fun row => if row.id = s.session_id then { row with updated_at := now } else row) ∧
    (s.add_user_message db mid text now true).sess.queue =
      s.queue ++ [{ event := "message", data := userMsg mid text }] ∧
    (s.add_user_message db mid text now true).sess.lockHeld = s.lockHeld ∧
    (s.add_user_message db mid text now true).err = none := by
  refine ⟨rfl, ?_, ?_, rfl, rfl, rfl, rfl, rfl⟩ <;>
    simp [userMsg, Jval.getField, lookupField]

/-- C10: if the persistence write inside `addUserMessage` fails, the
user message has already been appended to the in-memory history, no
`message` event is pushed, the store is unchanged, and the error
propagates to the caller. -/
theorem add_user_message_persist_failure (s : AgentSession) (db : DB)
    (mid text : String) (now : Nat) :
    (s.add_user_message db mid text now false).sess.messages =
      s.messages ++ [userMsg mid text] ∧
    (s.add_user_message db mid text now false).sess.queue = s.queue ∧
    (s.add_user_message db mid text now false).db = db ∧
    (s.add_user_message db mid text now false).err = some "PersistenceError" :=
  ⟨rfl, rfl, rfl, rfl⟩

/-- C7: each tool-result callback synthesizes exactly one `tool` role
message whose content is a single tool-result block carrying the
tool-use id, the text output, the error text and a boolean image flag
(no raw image bytes), persists it as one row, and pushes one `message`
event carrying it; the in-memory history and the lock are untouched. -/
theorem on_tool_output_contract (s : AgentSession) (db : DB) (r : ToolResult)
    (tid mid : String) (now : Nat) :
    (s.on_tool_output db r tid mid now).1.queue =
      s.queue ++ [{ event := "message", data := toolMsg mid tid r }] ∧
    (s.on_tool_output db r tid mid now).2.messages = db.messages ++
      [{ id := mid, session_id := s.session_id, role := "tool",
         content := toolMsg mid tid r, created_at := now }] ∧
    (toolMsg mid tid r).getField "role" = some (Jval.str "tool") ∧
    (toolMsg mid tid r).getField "content" = some (Jval.arr [toolResultPayload tid r]) ∧
    (toolResultPayload tid r).getField "tool_use_id" = some (Jval.str tid) ∧
    (toolResultPayload tid r).getField "output" = some (optStr r.output) ∧
    (toolResultPayload tid r).getField "error" = some (optStr r.error) ∧
    (toolResultPayload tid r).getField "has_image" =
      some (Jval.bool (pyTruthy r.base64_image)) ∧
    (toolResultPayload tid r).getField "base64_image" = none ∧
    (s.on_tool_output db r tid mid now).1.messages = s.messages ∧
    (s.on_tool_output db r tid mid now).1.lockHeld = s.lockHeld := by
  refine ⟨rfl, rfl, ?_, ?_, ?_, ?_, ?_, ?_, ?_, rfl, rfl⟩ <;>
    simp [toolMsg, toolResultPayload, Jval.getField, lookupField]

/-- C4 fails as stated: after Scenario A the store holds exactly one
`user` row, but its stored `content` column is the full message object
(id, role, content), not the bare block list `[ {type:"text", text:"hi"} ]`. -/
theorem scenarioA_stored_content_not_block_list :
    scenarioA.db.messages.map (fun row => row.content) = [userMsg "mid-1" "hi"] ∧
    scenarioA.db.messages.map (fun row => row.role) = ["user"] ∧
    userMsg "mid-1" "hi" ≠ hiBlocks := by
  refine ⟨rfl, rfl, ?_⟩
  intro hcontra
  exact Jval.noConfusion hcontra

/-- C4 amended: after Scenario A the store contains exactly one `user`
row whose stored content is the full message object — its `content`
field equals `[ {type:"text", text:"hi"} ]` — and exactly one `message`
event whose data is that same full message object is on the queue. -/
theorem scenarioA_contract :
    scenarioA.db.messages =
      [{ id := "mid-1", session_id := "s1", role := "user",
         content := userMsg "mid-1" "hi", created_at := 1 }] ∧
    (userMsg "mid-1" "hi").getField "content" = some hiBlocks ∧
    scenarioA.sess.queue = [{ event := "message", data := userMsg "mid-1" "hi" }] ∧
    scenarioA.sess.messages = [userMsg "mid-1" "hi"] ∧
    scenarioA.err = none := by
  refine ⟨rfl, ?_, rfl, rfl, rfl⟩
  simp [userMsg, hiBlocks, Jval.getField, lookupField]

/-- A first coordinator registered under `"s1"`. -/
def coordOld : AgentSession := AgentSession.init "s1" "m1" "tv" "k" ""

/-- A second, distinct coordinator registered under the same `"s1"`. -/
def coordNew : AgentSession := AgentSession.init "s1" "m2" "tv" "k" ""

/-- C5 fails as stated: registering a coordinator under an identifier
already present does not fail — the dict assignment succeeds and
silently replaces the existing coordinator. -/
theorem register_existing_id_overwrites :
    registerSession [("s1", coordOld)] "s1" coordNew = [("s1", coordNew)] ∧
    lookupSession (registerSession [("s1", coordOld)] "s1" coordNew) "s1" =
      some coordNew ∧
    coordNew ≠ coordOld := by
  refine ⟨?_, ?_, ?_⟩
  · simp [registerSession]
  · simp [registerSession, lookupSession]
  · intro hcontra
    have hm : coordNew.model = coordOld.model := by rw [hcontra]
    simp [coordOld, coordNew, AgentSession.init] at hm

/-- C5 amended: registration never fails; registering under any
identifier (present or not) makes the registry map that identifier to
the newly supplied coordinator, silently overwriting any previous one. -/
theorem register_maps_id_to_new_coordinator
    (m : List (String × AgentSession)) (id : String) (c : AgentSession) :
    lookupSession (registerSession m id c) id = some c := by
  induction m with
  | nil => simp [registerSession, lookupSession]
  | cons kv rest ih =>
      obtain ⟨k, v⟩ := kv
      by_cases hk : k = id
      · simp [registerSession, lookupSession, hk]
      · simp [registerSession, lookupSession, hk, ih]

/-- Lock invariant: the lock is held whenever a task is mid-turn, and
at most one task is mid-turn. -/
def lockInv (s : LockSys) : Prop :=
  ((s.p1 = Phase.running ∨ s.p2 = Phase.running) → s.lock = true) ∧
  ¬(s.p1 = Phase.running ∧ s.p2 = Phase.running)

lemma lockInv_start : lockInv LockSys.start := by
  constructor
  · rintro (h | h) <;> exact absurd h (by simp [LockSys.start])
  · rintro ⟨h, _⟩
    exact absurd h (by simp [LockSys.start])

lemma lockInv_step {s t : LockSys} (hs : lockInv s) (h : LockStep s t) : lockInv t := by
  cases h with
  | acquire1 hl hp =>
      refine ⟨fun _ => rfl, ?_⟩
      rintro ⟨_, h2⟩
      have := hs.1 (Or.inr h2)
      rw [hl] at this
      exact Bool.noConfusion this
  | acquire2 hl hp =>
      refine ⟨fun _ => rfl, ?_⟩
      rintro ⟨h1, _⟩
      have := hs.1 (Or.inl h1)
      rw [hl] at this
      exact Bool.noConfusion this
  | release1 hp =>
      constructor
      · rintro (h1 | h2)
        · exact absurd h1 (by simp)
        · exact absurd (hs.2 ⟨hp, h2⟩) (fun hf => hf)
      · rintro ⟨h1, _⟩
        exact absurd h1 (by simp)
  | release2 hp =>
      constructor
      · rintro (h1 | h2)
        · exact absurd (hs.2 ⟨h1, hp⟩) (fun hf => hf)
        · exact absurd h2 (by simp)
      · rintro ⟨_, h2⟩
        exact absurd h2 (by simp)

lemma lockInv_reachable {s : LockSys} (h : LockReachable s) : lockInv s := by
  induction h with
  | start => exact lockInv_start
  | step _ hstep ih => exact lockInv_step ih hstep

/-- C1: two `runOnce` calls on the same coordinator never execute
concurrently: in every reachable state at most one caller's executor
invocation is in flight, and a step that lets one caller begin its
turn (acquire the lock and invoke the executor) can only happen while
the other caller is not mid-turn — i.e. only after any earlier holder
has released the lock. -/
theorem run_once_mutual_exclusion :
    (∀ s : LockSys, LockReachable s →
      ¬(s.p1 = Phase.running ∧ s.p2 = Phase.running)) ∧
    (∀ s t : LockSys, LockReachable s → LockStep s t →
      s.p2 = Phase.waiting → t.p2 = Phase.running → s.p1 ≠ Phase.running) ∧
    (∀ s t : LockSys, LockReachable s → LockStep s t →
      s.p1 = Phase.waiting → t.p1 = Phase.running → s.p2 ≠ Phase.running) := by
  refine ⟨fun s hr => (lockInv_reachable hr).2, ?_, ?_⟩
  · intro s t hr hstep hw hrun
    cases hstep with
    | acquire1 hl hp =>
        rw [hw] at hrun
        exact absurd hrun (by simp)
    | acquire2 hl hp =>
        intro h1
        have := (lockInv_reachable hr).1 (Or.inl h1)
        rw [hl] at this
        exact Bool.noConfusion this
    | release1 hp =>
        rw [hw] at hrun
        exact absurd hrun (by simp)
    | release2 hp =>
        rw [hw] at hp
        exact absurd hp (by simp)
  · intro s t hr hstep hw hrun
    cases hstep with
    | acquire1 hl hp =>
        intro h2
        have := (lockInv_reachable hr).1 (Or.inr h2)
        rw [hl] at this
        exact Bool.noConfusion this
    | acquire2 hl hp =>
        rw [hw] at hrun
        exact absurd hrun (by simp)
    | release1 hp =>
        rw [hw] at hp
        exact absurd hp (by simp)
    | release2 hp =>
        rw [hw] at hrun
        exact absurd hrun (by simp)

/-- C1 witness: a concrete interleaving — caller 1 acquires, finishes
and releases, then caller 2 acquires — checked against the theorem at
those concrete states. -/
theorem run_once_mutual_exclusion_witness :
    ¬(({ lock := true, p1 := Phase.running, p2 := Phase.waiting } : LockSys).p1 =
        Phase.running ∧
      ({ lock := true, p1 := Phase.running, p2 := Phase.waiting } : LockSys).p2 =
        Phase.running) ∧
    ({ lock := false, p1 := Phase.done, p2 := Phase.waiting } : LockSys).p1 ≠
      Phase.running := by
  have hr1 : LockReachable { lock := true, p1 := Phase.running, p2 := Phase.waiting } :=
    LockReachable.step LockReachable.start (LockStep.acquire1 LockSys.start rfl rfl)
  have hr2 : LockReachable { lock := false, p1 := Phase.done, p2 := Phase.waiting } :=
    LockReachable.step hr1
      (LockStep.release1 { lock := true, p1 := Phase.running, p2 := Phase.waiting } rfl)
  exact ⟨run_once_mutual_exclusion.1 _ hr1,
    run_once_mutual_exclusion.2.1 _ _ hr2
      (LockStep.acquire2 { lock := false, p1 := Phase.done, p2 := Phase.waiting } rfl rfl)
      rfl rfl⟩

/-- Queue invariant: everything ever pushed is exactly what was
consumed followed by what is still pending. -/
def queueInv (s : QueueSys) : Prop :=
  s.pushedLog = s.consumed ++ s.pending

lemma queueInv_start : queueInv QueueSys.start := rfl

lemma queueInv_step {s t : QueueSys} (hs : queueInv s) (h : QueueStep s t) :
    queueInv t := by
  cases h with
  | push e =>
      show s.pushedLog ++ [e] = s.consumed ++ (enqueue s.pending e)
      rw [hs, enqueue, List.append_assoc]
  | consume e rest hp =>
      show s.pushedLog = (s.consumed ++ [e]) ++ rest
      rw [hs, hp, List.append_assoc]
      rfl

lemma queueInv_reachable {s : QueueSys} (h : QueueReachable s) : queueInv s := by
  induction h with
  | start => exact queueInv_start
  | step _ hstep ih => exact queueInv_step ih hstep

/-- C8: `push` is total — always enabled, never failing or blocking the
producer — and in every reachable queue state the consumed events are
exactly the first pushed events in push order: position `i` of the
consumed sequence equals position `i` of the push log, so no event is
duplicated, skipped or reordered for the attached consumer. -/
theorem event_queue_push_total_and_fifo :
    (∀ (s : QueueSys) (e : StreamEvent), QueueStep s (s.push e)) ∧
    (∀ s : QueueSys, QueueReachable s → s.pushedLog = s.consumed ++ s.pending) ∧
    (∀ s : QueueSys, QueueReachable s → ∀ i : Nat, i < s.consumed.length →
      s.consumed[i]? = s.pushedLog[i]?) := by
  refine ⟨fun s e => QueueStep.push s e, fun s hr => queueInv_reachable hr, ?_⟩
  intro s hr i hi
  rw [queueInv_reachable hr]
  exact (List.getElem?_append_left hi).symm

/-- Two concrete events for the queue witness. -/
def evA : StreamEvent := { event := "message", data := Jval.null }

/-- A second concrete event for the queue witness. -/
def evB : StreamEvent := { event := "assistant_chunk", data := Jval.null }

/-- C8 witness: push `evA`, push `evB`, consume once; the reached state
satisfies the FIFO properties via the theorem. -/
theorem event_queue_push_total_and_fifo_witness :
    ({ pending := [evB], pushedLog := [evA, evB], consumed := [evA] } : QueueSys).pushedLog =
      ({ pending := [evB], pushedLog := [evA, evB], consumed := [evA] } : QueueSys).consumed ++
      ({ pending := [evB], pushedLog := [evA, evB], consumed := [evA] } : QueueSys).pending ∧
    ({ pending := [evB], pushedLog := [evA, evB], consumed := [evA] } : QueueSys).consumed[0]? =
      ({ pending := [evB], pushedLog := [evA, evB], consumed := [evA] } : QueueSys).pushedLog[0]? := by
  have h1 : QueueReachable (QueueSys.start.push evA) :=
    QueueReachable.step QueueReachable.start (QueueStep.push QueueSys.start evA)
  have h2 : QueueReachable ((QueueSys.start.push evA).push evB) :=
    QueueReachable.step h1 (QueueStep.push (QueueSys.start.push evA) evB)
  have h3 : QueueReachable
      ({ pending := [evB], pushedLog := [evA, evB], consumed := [evA] } : QueueSys) :=
    QueueReachable.step h2 (QueueStep.consume ((QueueSys.start.push evA).push evB) evA [evB] rfl)
  exact ⟨event_queue_push_total_and_fifo.2.1 _ h3,
    event_queue_push_total_and_fifo.2.2 _ h3 0 (by decide)⟩

/-- The coordinator/store/counter state after processing a turn's
callbacks, i.e. `processCallbacks` started inside the lock. -/
def afterCallbacks (s : AgentSession) (db : DB) (n now : Nat)
    (cs : List CallbackInvocation) : AgentSession × DB × Nat :=
  processCallbacks { s with lockHeld := true } db n now cs

lemma processCallback_sess_frame (s : AgentSession) (db : DB) (n now : Nat)
    (c : CallbackInvocation) :
    (processCallback s db n now c).1.session_id = s.session_id ∧
    (processCallback s db n now c).1.messages = s.messages ∧
    (processCallback s db n now c).1.lockHeld = s.lockHeld := by
  cases c <;>
    simp [processCallback, AgentSession.on_output, AgentSession.on_tool_output,
      AgentSession.on_api_response, AgentSession.emit]

lemma processCallbacks_sess_frame (cs : List CallbackInvocation) :
    ∀ (s : AgentSession) (db : DB) (n now : Nat),
    (processCallbacks s db n now cs).1.session_id = s.session_id ∧
    (processCallbacks s db n now cs).1.messages = s.messages ∧
    (processCallbacks s db n now cs).1.lockHeld = s.lockHeld := by
  induction cs with
  | nil => exact fun s db n now => ⟨rfl, rfl, rfl⟩
  | cons c rest ih =>
      intro s db n now
      have hc := processCallback_sess_frame s db n now c
      have hr := ih (processCallback s db n now c).1 (processCallback s db n now c).2.1
        (processCallback s db n now c).2.2 now
      exact ⟨hr.1.trans hc.1, hr.2.1.trans hc.2.1, hr.2.2.trans hc.2.2⟩

lemma run_once_ok_total (s : AgentSession) (db : DB) (cs : List CallbackInvocation)
    (h : List Jval) (n now : Nat) (hlock : s.lockHeld = false) :
    ∃ r : RunResult, s.run_once db (fun _ => ⟨cs, Except.ok h⟩) n now = some r ∧
      r.err = none ∧ r.sess.lockHeld = false := by
  by_cases hA : lastRoleIsAssistant h
  · cases hgl : h.getLast? with
    | none => simp [lastRoleIsAssistant, hgl] at hA
    | some a =>
        refine ⟨{ sess := { ((afterCallbacks s db n now cs).1.emit "message"
                    (spreadWithId (freshId (afterCallbacks s db n now cs).2.2) a)) with
                    messages := h, lockHeld := false },
                  db := upsert_message (afterCallbacks s db n now cs).2.1
                    (freshId (afterCallbacks s db n now cs).2.2)
                    (afterCallbacks s db n now cs).1.session_id "assistant" a now,
                  err := none }, ?_, rfl, rfl⟩
        simp [AgentSession.run_once, hlock, afterCallbacks, hA, hgl]
  · refine ⟨{ sess := { (afterCallbacks s db n now cs).1 with
                messages := h, lockHeld := false },
              db := (afterCallbacks s db n now cs).2.1, err := none }, ?_, rfl, rfl⟩
    simp [AgentSession.run_once, hlock, afterCallbacks, hA]

/-- C2: `runOnce` releases the turn lock on every exit path.  When the
executor raises, the error propagates to the caller, the lock is back
in the idle state, and a subsequent `runOnce` on the same coordinator
acquires the lock and completes without error. -/
theorem run_once_lock_released_on_failure (s : AgentSession) (db : DB)
    (cs : List CallbackInvocation) (e : String) (n now : Nat)
    (hlock : s.lockHeld = false) :
    ∃ r : RunResult, s.run_once db (fun _ => ⟨cs, Except.error e⟩) n now = some r ∧
      r.err = some e ∧ r.sess.lockHeld = false ∧ r.sess.messages = s.messages ∧
      ∀ (db2 : DB) (h2 : List Jval) (n2 now2 : Nat), ∃ r2 : RunResult,
        r.sess.run_once db2 (fun _ => ⟨[], Except.ok h2⟩) n2 now2 = some r2 ∧
        r2.err = none ∧ r2.sess.lockHeld = false := by
  refine ⟨{ sess := { (afterCallbacks s db n now cs).1 with lockHeld := false },
            db := (afterCallbacks s db n now cs).2.1, err := some e }, ?_, rfl, rfl, ?_, ?_⟩
  · simp [AgentSession.run_once, hlock, afterCallbacks]
  · exact (processCallbacks_sess_frame cs { s with lockHeld := true } db n now).2.1
  · intro db2 h2 n2 now2
    exact run_once_ok_total _ db2 [] h2 n2 now2 rfl

/-- C2 witness: a failing executor on the Scenario A coordinator. -/
theorem run_once_lock_released_on_failure_witness :
    ∃ r : RunResult,
      scenarioA.sess.run_once scenarioA.db (fun _ => ⟨[], Except.error "boom"⟩) 2 3 =
        some r ∧
      r.err = some "boom" ∧ r.sess.lockHeld = false ∧
      r.sess.messages = scenarioA.sess.messages ∧
      ∀ (db2 : DB) (h2 : List Jval) (n2 now2 : Nat), ∃ r2 : RunResult,
        r.sess.run_once db2 (fun _ => ⟨[], Except.ok h2⟩) n2 now2 = some r2 ∧
        r2.err = none ∧ r2.sess.lockHeld = false :=
  run_once_lock_released_on_failure scenarioA.sess scenarioA.db [] "boom" 2 3 rfl

/-- C6: after the executor returns history `h`, the coordinator's
in-memory history is replaced wholesale by `h`; beyond the callbacks'
own effects, nothing is persisted or pushed unless `h` ends with an
`assistant` entry, in which case exactly one new `assistant` row is
persisted and exactly one `message` event (the entry under a fresh id)
is pushed. -/
theorem run_once_replaces_history_and_persists_assistant (s : AgentSession) (db : DB)
    (cs : List CallbackInvocation) (h : List Jval) (n now : Nat)
    (hlock : s.lockHeld = false) :
    ∃ r : RunResult, s.run_once db (fun _ => ⟨cs, Except.ok h⟩) n now = some r ∧
      r.sess.messages = h ∧ r.err = none ∧ r.sess.lockHeld = false ∧
      (lastRoleIsAssistant h = false →
        r.db = (afterCallbacks s db n now cs).2.1 ∧
        r.sess.queue = (afterCallbacks s db n now cs).1.queue) ∧
      (∀ a : Jval, h.getLast? = some a → lastRoleIsAssistant h = true →
        r.db.messages = (afterCallbacks s db n now cs).2.1.messages ++
          [{ id := freshId (afterCallbacks s db n now cs).2.2,
             session_id := s.session_id, role := "assistant",
             content := a, created_at := now }] ∧
        r.sess.queue = (afterCallbacks s db n now cs).1.queue ++
          [{ event := "message",
             data := spreadWithId (freshId (afterCallbacks s db n now cs).2.2) a }]) := by
  have hsid : (afterCallbacks s db n now cs).1.session_id = s.session_id :=
    (processCallbacks_sess_frame cs { s with lockHeld := true } db n now).1
  by_cases hA : lastRoleIsAssistant h
  · cases hgl : h.getLast? with
    | none => simp [lastRoleIsAssistant, hgl] at hA
    | some a =>
        refine ⟨{ sess := { ((afterCallbacks s db n now cs).1.emit "message"
                    (spreadWithId (freshId (afterCallbacks s db n now cs).2.2) a)) with
                    messages := h, lockHeld := false },
                  db := upsert_message (afterCallbacks s db n now cs).2.1
                    (freshId (afterCallbacks s db n now cs).2.2)
                    (afterCallbacks s db n now cs).1.session_id "assistant" a now,
                  err := none }, ?_, rfl, rfl, rfl, ?_, ?_⟩
        · simp [AgentSession.run_once, hlock, afterCallbacks, hA, hgl]
        · intro hcontra
          rw [hA] at hcontra
          exact Bool.noConfusion hcontra
        · intro a2 hgl2 _
          injection hgl2 with ha2
          subst ha2
          refine ⟨?_, rfl⟩
          simp [upsert_message, hsid]
  · refine ⟨{ sess := { (afterCallbacks s db n now cs).1 with
                messages := h, lockHeld := false },
              db := (afterCallbacks s db n now cs).2.1, err := none }, ?_, rfl, rfl, rfl,
            fun _ => ⟨rfl, rfl⟩, ?_⟩
    · simp [AgentSession.run_once, hlock, afterCallbacks, hA]
    · intro a hgl hcontra
      exact absurd hcontra hA

/-- The assistant reply of Scenario B. -/
def assistantMsgB : Jval :=
  .obj [("role", .str "assistant"),
        ("content", .arr [.obj [("type", .str "text"), ("text", .str "hello back")]])]

/-- Scenario B history: the Scenario A history plus one assistant
message. -/
def histB : List Jval := scenarioA.sess.messages ++ [assistantMsgB]

/-- C6 witness: Scenario B — the executor returns the original history
plus one assistant message; the in-memory history ends with 2 entries
and the persisted/pushed effects follow from the theorem. -/
theorem run_once_replaces_history_witness :
    histB.length = 2 ∧ lastRoleIsAssistant histB = true ∧
    (∃ r : RunResult,
      scenarioA.sess.run_once scenarioA.db (fun _ => ⟨[], Except.ok histB⟩) 2 3 = some r ∧
      r.sess.messages = histB ∧ r.err = none ∧ r.sess.lockHeld = false ∧
      (lastRoleIsAssistant histB = false →
        r.db = (afterCallbacks scenarioA.sess scenarioA.db 2 3 []).2.1 ∧
        r.sess.queue = (afterCallbacks scenarioA.sess scenarioA.db 2 3 []).1.queue) ∧
      (∀ a : Jval, histB.getLast? = some a → lastRoleIsAssistant histB = true →
        r.db.messages = (afterCallbacks scenarioA.sess scenarioA.db 2 3 []).2.1.messages ++
          [{ id := freshId (afterCallbacks scenarioA.sess scenarioA.db 2 3 []).2.2,
             session_id := scenarioA.sess.session_id, role := "assistant",
             content := a, created_at := 3 }] ∧
        r.sess.queue = (afterCallbacks scenarioA.sess scenarioA.db 2 3 []).1.queue ++
          [{ event := "message",
             data := spreadWithId
               (freshId (afterCallbacks scenarioA.sess scenarioA.db 2 3 []).2.2) a }])) :=
  ⟨rfl, rfl,
    run_once_replaces_history_and_persists_assistant scenarioA.sess scenarioA.db []
      histB 2 3 rfl⟩

/-- The `assistant_chunk` events produced by a list of content blocks. -/
def chunkEvents (bs : List Jval) : List StreamEvent :=
  bs.map (fun b => { event := "assistant_chunk", data := Jval.obj [("block", b)] })

lemma processCallbacks_chunks (bs : List Jval) :
    ∀ (s : AgentSession) (db : DB) (n now : Nat),
    processCallbacks s db n now (bs.map CallbackInvocation.chunk) =
      ({ s with queue := s.queue ++ chunkEvents bs }, db, n) := by
  induction bs with
  | nil => intro s db n now; simp [processCallbacks, chunkEvents]
  | cons b rest ih =>
      intro s db n now
      show processCallbacks (s.on_output b) db n now (rest.map CallbackInvocation.chunk) = _
      rw [ih]
      simp [AgentSession.on_output, AgentSession.emit, enqueue, chunkEvents]

/-- C9: assistant content-chunk callbacks only push `assistant_chunk`
events and write nothing to the persistence store; a whole turn whose
executor fires only chunk callbacks and whose returned history does not
end with an `assistant` entry leaves the store completely unchanged. -/
theorem assistant_chunks_not_persisted (s : AgentSession) (db : DB) (bs : List Jval)
    (h : List Jval) (n now : Nat) (hlock : s.lockHeld = false)
    (hna : lastRoleIsAssistant h = false) :
    processCallbacks s db n now (bs.map CallbackInvocation.chunk) =
      ({ s with queue := s.queue ++ chunkEvents bs }, db, n) ∧
    s.run_once db (fun _ => ⟨bs.map CallbackInvocation.chunk, Except.ok h⟩) n now =
      some { sess := { s with
                         messages := h,
                         queue := s.queue ++ chunkEvents bs,
                         lockHeld := false },
             db := db, err := none } := by
  refine ⟨processCallbacks_chunks bs s db n now, ?_⟩
  simp [AgentSession.run_once, hlock, processCallbacks_chunks, hna]

/-- C9 witness: two concrete chunk callbacks during a turn whose
executor returns an empty history. -/
theorem assistant_chunks_not_persisted_witness :
    processCallbacks scenarioSess0 scenarioDB0 0 0
        ([Jval.str "Hel", Jval.str "lo"].map CallbackInvocation.chunk) =
      ({ scenarioSess0 with
         queue := scenarioSess0.queue ++ chunkEvents [Jval.str "Hel", Jval.str "lo"] },
       scenarioDB0, 0) ∧
    scenarioSess0.run_once scenarioDB0
        (fun _ => ⟨[Jval.str "Hel", Jval.str "lo"].map CallbackInvocation.chunk,
                   Except.ok []⟩) 0 0 =
      some { sess := { scenarioSess0 with
                         messages := [],
                         queue := scenarioSess0.queue ++
                           chunkEvents [Jval.str "Hel", Jval.str "lo"],
                         lockHeld := false },
             db := scenarioDB0, err := none } :=
  assistant_chunks_not_persisted scenarioSess0 scenarioDB0
    [Jval.str "Hel", Jval.str "lo"] [] 0 0 rfl rfl

end AgentBackend
